import Mathlib

set_option maxRecDepth 10000

/-!
Verification development for the rivet-plugin-mistral repository.

The definitions below are a shallow embedding of the plugin's code:
`src/nodes/mistralChatNode.ts` (the node's `process` implementation),
`src/index.ts` (`convertToMistralMessage`, the model price table and the
message constructors) and `src/mistral.ts` (`streamChatCompletions`' line
decoder, which is the same line machine as the node's inline decoder).
JavaScript strings are modeled through their character lists, JSON numbers
as exact rationals, and JSON.parse as an executable parser over the JSON
fragment the endpoint emits (objects, arrays, strings with simple
escapes, decimal numbers, booleans, null).
-/

/-- Whitespace recognized by the JS `trim`/parse helpers we model. -/
def isWsChar (c : Char) : Bool := c = ' ' || c = '\n' || c = '\t' || c = '\r'

/-- Drop leading whitespace from a character list. -/
def skipWs : List Char → List Char
  | [] => []
  | c :: cs => if isWsChar c then skipWs cs else c :: cs

/-- Model of JavaScript `String.prototype.trim` on character lists. -/
def trimChars (cs : List Char) : List Char :=
  ((cs.dropWhile isWsChar).reverse.dropWhile isWsChar).reverse

/-- Model of JavaScript `String.prototype.trim`. -/
def jsTrim (s : String) : String := String.mk (trimChars s.data)

/-- Fold a digit list into a natural number. -/
def digitsToNat (ds : List Char) : Nat :=
  ds.foldl (fun a c => a * 10 + (c.toNat - '0'.toNat)) 0

/-! Rational arithmetic helpers. The standard `ℚ` operations (`+`, `*`,
`/`, `⌊⌋`) do not evaluate inside the kernel, so the embedding computes
with `mkRat`-based equivalents; `qAdd_eq`, `qMul_eq`, `qDivNat_eq` and
`toFixed4_eq_floor` below prove them equal to the standard operations, so
every theorem can be read with ordinary rational arithmetic. -/

/-- The rational `n / d`. -/
def jq (n : ℤ) (d : ℕ) : ℚ := mkRat n d

/-- Addition on `ℚ` (computable form). -/
def qAdd (a b : ℚ) : ℚ := mkRat (a.num * b.den + b.num * a.den) (a.den * b.den)

/-- Multiplication on `ℚ` (computable form). -/
def qMul (a b : ℚ) : ℚ := mkRat (a.num * b.num) (a.den * b.den)

/-- Division of a rational by a natural number (computable form). -/
def qDivNat (a : ℚ) (n : ℕ) : ℚ := mkRat a.num (a.den * n)

/-- JSON values, as produced by `JSON.parse`; numbers are exact rationals. -/
inductive Json where
  | null
  | bool (b : Bool)
  | num (q : ℚ)
  | str (s : String)
  | arr (elems : List Json)
  | obj (fields : List (String × Json))
deriving Inhabited

/-- Translate a JSON string escape character (subset used by the wire format). -/
def escChar (c : Char) : Char :=
  if c = 'n' then '\n' else if c = 't' then '\t' else if c = 'r' then '\r' else c

/-- Parse the body of a JSON string after the opening quote; returns the
decoded characters and the rest of the input. -/
def parseStrChars : List Char → Option (List Char × List Char)
  | [] => none
  | '"' :: cs => some ([], cs)
  | '\\' :: [] => none
  | '\\' :: e :: cs =>
    match parseStrChars cs with
    | some (s, rest) => some (escChar e :: s, rest)
    | none => none
  | c :: cs =>
    match parseStrChars cs with
    | some (s, rest) => some (c :: s, rest)
    | none => none

/-- Parse a decimal JSON number (optional minus sign, digits, optional
fraction); returns its exact rational value and the rest of the input. -/
def parseNumberCore (cs : List Char) : Option (ℚ × List Char) :=
  let p : Bool × List Char := match cs with
    | '-' :: rest => (true, rest)
    | _ => (false, cs)
  let neg := p.1
  let cs1 := p.2
  let intDigits := cs1.takeWhile (·.isDigit)
  let rest1 := cs1.dropWhile (·.isDigit)
  if intDigits.isEmpty then none
  else
    let ip : ℕ := digitsToNat intDigits
    let mr : ℤ × ℕ × List Char := match rest1 with
      | '.' :: rest2 =>
        let fracDigits := rest2.takeWhile (·.isDigit)
        if fracDigits.isEmpty then ((ip : ℤ), 1, rest1)
        else ((ip * 10 ^ fracDigits.length + digitsToNat fracDigits : ℕ),
              10 ^ fracDigits.length, rest2.dropWhile (·.isDigit))
      | _ => ((ip : ℤ), 1, rest1)
    some (jq (if neg then -mr.1 else mr.1) mr.2.1, mr.2.2)

mutual

/-- Fuel-indexed parser for one JSON value. -/
def parseVal : Nat → List Char → Option (Json × List Char)
  | 0, _ => none
  | Nat.succ fuel, cs =>
    match skipWs cs with
    | 'n' :: 'u' :: 'l' :: 'l' :: rest => some (.null, rest)
    | 't' :: 'r' :: 'u' :: 'e' :: rest => some (.bool true, rest)
    | 'f' :: 'a' :: 'l' :: 's' :: 'e' :: rest => some (.bool false, rest)
    | '"' :: rest =>
      match parseStrChars rest with
      | some (s, r) => some (.str (String.mk s), r)
      | none => none
    | '[' :: rest =>
      match skipWs rest with
      | ']' :: r => some (.arr [], r)
      | cs2 =>
        match parseElems fuel cs2 with
        | some (l, r) => some (.arr l, r)
        | none => none
    | '{' :: rest =>
      match skipWs rest with
      | '}' :: r => some (.obj [], r)
      | cs2 =>
        match parseMembers fuel cs2 with
        | some (l, r) => some (.obj l, r)
        | none => none
    | cs1 =>
      match parseNumberCore cs1 with
      | some (q, r) => some (.num q, r)
      | none => none

/-- Fuel-indexed parser for the elements of a JSON array (after `[`). -/
def parseElems : Nat → List Char → Option (List Json × List Char)
  | 0, _ => none
  | Nat.succ fuel, cs =>
    match parseVal fuel cs with
    | none => none
    | some (v, r) =>
      match skipWs r with
      | ',' :: r2 =>
        match parseElems fuel r2 with
        | some (l, r3) => some (v :: l, r3)
        | none => none
      | ']' :: r2 => some ([v], r2)
      | _ => none

/-- Fuel-indexed parser for the members of a JSON object (after `{`). -/
def parseMembers : Nat → List Char → Option (List (String × Json) × List Char)
  | 0, _ => none
  | Nat.succ fuel, cs =>
    match skipWs cs with
    | '"' :: rest =>
      match parseStrChars rest with
      | none => none
      | some (k, r) =>
        match skipWs r with
        | ':' :: r2 =>
          match parseVal fuel r2 with
          | none => none
          | some (v, r3) =>
            match skipWs r3 with
            | ',' :: r4 =>
              match parseMembers fuel r4 with
              | some (l, r5) => some ((String.mk k, v) :: l, r5)
              | none => none
            | '}' :: r4 => some ([(String.mk k, v)], r4)
            | _ => none
        | _ => none
    | _ => none

end

/-- Model of `JSON.parse`: parse one value and require only trailing
whitespace after it. -/
def parseJson (s : String) : Option Json :=
  match parseVal (s.data.length + 1) s.data with
  | some (j, rest) => if (skipWs rest).isEmpty then some j else none
  | none => none

/-- Last binding wins for duplicate keys, as in `JSON.parse`. -/
def lookupLast (fields : List (String × Json)) (k : String) : Option Json :=
  fields.foldl (fun acc p => if p.1 = k then some p.2 else acc) none

/-- JS property read `j[k]`; `none` models `undefined`. -/
def getField : Json → String → Option Json
  | .obj fs, k => lookupLast fs k
  | _, _ => none

/-- JavaScript truthiness of a possibly-undefined value. -/
def truthy : Option Json → Bool
  | none => false
  | some .null => false
  | some (.bool b) => b
  | some (.num q) => decide (q ≠ 0)
  | some (.str s) => decide (s ≠ "")
  | some (.arr _) => true
  | some (.obj _) => true

/-- JS index read `j[0]`. String indexing would yield a one-character
string, but every downstream use immediately reads a property of the
result, so the outcome is `undefined` either way and we return `none`. -/
def indexZero : Json → Option Json
  | .arr l => l.head?
  | .obj fs => lookupLast fs "0"
  | _ => none

/-- Model of `j.choices[0]?.<field>?.content` (field is `delta` when
streaming, `message` otherwise). Reading `[0]` of `undefined` or `null`
throws a TypeError (`.error`); the optional chains after it yield
`undefined` (`none`) instead of throwing. -/
def choiceZeroField (j : Json) (fieldName : String) : Except Unit (Option Json) :=
  match getField j "choices" with
  | none => .error ()
  | some .null => .error ()
  | some choices =>
    match indexZero choices with
    | none => .ok none
    | some .null => .ok none
    | some c0 =>
      match getField c0 fieldName with
      | none => .ok none
      | some .null => .ok none
      | some d => .ok (getField d "content")

/-- Display of a JSON value when coerced into the accumulated response
text; the endpoint only ever sends strings here, the other branches
approximate JS string coercion. -/
def jsDisplay : Json → String
  | .str s => s
  | .num q => toString q
  | .bool b => if b then "true" else "false"
  | .null => "null"
  | .arr _ => ""
  | .obj _ => "[object Object]"

/-! ## Chat message model (src/index.ts, src/nodes/mistralChatNode.ts) -/

/-- The host's chat message: a type tag plus text. The source reads
`msg.message` and stringifies non-string payloads; we model the payload
as the resulting string. -/
structure RivetMessage where
  type : String
  message : String
deriving DecidableEq

/-- Outbound wire message. The TypeScript field is typed
`'system' | 'user' | 'assistant'`, but the messages-input branch fills it
through a plain type cast, so the embedding uses a string. -/
structure MistralMessage where
  role : String
  content : String
deriving DecidableEq

/-- `createAssistantMessage` from src/index.ts. -/
def createAssistantMessage (content : String) : RivetMessage := ⟨"assistant", content⟩

/-- `createSystemMessage` from src/index.ts. -/
def createSystemMessage (content : String) : RivetMessage := ⟨"system", content⟩

/-- `createUserMessage` from src/index.ts. -/
def createUserMessage (content : String) : RivetMessage := ⟨"user", content⟩

/-- `convertToMistralMessage` from src/index.ts: total role mapping with
unknown tags defaulting to `user`. -/
def convertToMistralMessage (m : RivetMessage) : MistralMessage :=
  match m.type with
  | "system" => ⟨"system", m.message⟩
  | "user" => ⟨"user", m.message⟩
  | "assistant" => ⟨"assistant", m.message⟩
  | _ => ⟨"user", m.message⟩

/-- The messages-input branch of `process` (mistralChatNode.ts lines
309-312): the tag is copied verbatim into the role field by a type cast,
with no mapping step. -/
def castMessage (m : RivetMessage) : MistralMessage := ⟨m.type, m.message⟩

/-- Lines 296-301 of `process`: a non-blank resolved system prompt is
pushed as a system message before either input branch runs. -/
def initialMessages (systemPrompt : String) : List MistralMessage :=
  if jsTrim systemPrompt ≠ "" then [⟨"system", systemPrompt⟩] else []

/-- The prompt-mode input union (chat-message, chat-message[], string,
string[]). -/
inductive PromptInput where
  | chatMessage (m : RivetMessage)
  | chatMessages (l : List RivetMessage)
  | strVal (s : String)
  | strList (l : List String)
deriving DecidableEq

/-- Errors `process` can throw before/at the fetch boundary. -/
inductive NodeError where
  | apiKeyMissing
  | invalidMessagesInput
  | noPrompt
  | invalidPromptFormat
  | apiError
  | noResponseBody
  | typeError
deriving DecidableEq

/-- Prompt-mode normalization (lines 319-331). -/
def promptToMessages : PromptInput → List RivetMessage
  | .chatMessage m => [m]
  | .chatMessages l => l
  | .strVal s => [createUserMessage s]
  | .strList l => l.map createUserMessage

/-- Message-list assembly of `process` (lines 294-334): optional system
message first, then either the cast-converted messages input or the
adapter-converted prompt input. -/
def buildMessages (systemPrompt : String) (useMessagesInput : Bool)
    (messagesInput : Option (List RivetMessage)) (promptInput : Option PromptInput) :
    Except NodeError (List MistralMessage) :=
  let base := initialMessages systemPrompt
  if useMessagesInput then
    match messagesInput with
    | none => .error .invalidMessagesInput
    | some l => .ok (base ++ l.map castMessage)
  else
    match promptInput with
    | none => .error .noPrompt
    | some p => .ok (base ++ (promptToMessages p).map convertToMistralMessage)

/-- Lines 431-435 and 637-641: converting an outbound message back to a
host message for the "All Messages" output; any role other than system or
user (including cast-through unknown roles) becomes an assistant message. -/
def mistralToRivet (m : MistralMessage) : RivetMessage :=
  match m.role with
  | "system" => createSystemMessage m.content
  | "user" => createUserMessage m.content
  | _ => createAssistantMessage m.content

/-! ## Model price table (src/index.ts) -/

inductive Currency where
  | USD
  | EUR
deriving DecidableEq

/-- Per-currency price strings as stored in the table. -/
structure PriceTag where
  usd : String
  eur : String
deriving DecidableEq

/-- One entry of the `mistralModels` table. -/
structure ModelInfo where
  maxTokens : ℕ
  promptCost : PriceTag
  completionCost : PriceTag
  displayName : String
  contextLength : ℕ
deriving DecidableEq

def PriceTag.forCurrency (p : PriceTag) : Currency → String
  | .USD => p.usd
  | .EUR => p.eur

/-- The `mistralModels` table of src/index.ts. -/
def mistralModels (id : String) : Option ModelInfo :=
  if id = "mistral-large-latest" then
    some ⟨131072, ⟨"$2", "1.8 €"⟩, ⟨"$6", "5.4 €"⟩, "Mistral Large 24.11", 131072⟩
  else if id = "pixtral-large-latest" then
    some ⟨131072, ⟨"$2", "1.8 €"⟩, ⟨"$6", "5.4 €"⟩, "Pixtral Large", 131072⟩
  else if id = "mistral-saba-latest" then
    some ⟨32768, ⟨"$0.2", "0.2 €"⟩, ⟨"$0.6", "0.6 €"⟩, "Mistral Saba", 32768⟩
  else if id = "codestral-latest" then
    some ⟨262144, ⟨"$0.3", "0.3 €"⟩, ⟨"$0.9", "0.9 €"⟩, "Codestral", 262144⟩
  else if id = "ministral-8b-latest" then
    some ⟨131072, ⟨"$0.1", "0.09 €"⟩, ⟨"$0.1", "0.09 €"⟩, "Ministral 8B 24.10", 131072⟩
  else if id = "ministral-3b-latest" then
    some ⟨131072, ⟨"$0.04", "0.04 €"⟩, ⟨"$0.04", "0.04 €"⟩, "Ministral 3B 24.10", 131072⟩
  else if id = "mistral-embed" then
    some ⟨8192, ⟨"$0.1", "0.09 €"⟩, ⟨"-", "-"⟩, "Mistral Embed", 8192⟩
  else if id = "mistral-moderation-latest" then
    some ⟨8192, ⟨"$0.1", "0.09 €"⟩, ⟨"-", "-"⟩, "Mistral Moderation 24.11", 8192⟩
  else if id = "mistral-ocr-latest" then
    some ⟨0, ⟨"1000 Pages / $1", "1000 Pages / 1€"⟩, ⟨"-", "-"⟩, "Mistral OCR", 0⟩
  else if id = "mistral-small-latest" then
    some ⟨131072, ⟨"$0.1", "0.09 €"⟩, ⟨"$0.3", "0.27 €"⟩, "Mistral Small", 131072⟩
  else if id = "open-mistral-7b" then
    some ⟨32768, ⟨"$0.25", "0.23 €"⟩, ⟨"$0.25", "0.23 €"⟩, "Open Mistral 7B", 32768⟩
  else if id = "open-mixtral-8x7b" then
    some ⟨32768, ⟨"$0.7", "0.63 €"⟩, ⟨"$0.7", "0.63 €"⟩, "Open Mixtral 8x7B", 32768⟩
  else if id = "open-mixtral-8x22b" then
    some ⟨64000, ⟨"$2", "1.8 €"⟩, ⟨"$6", "5.4 €"⟩, "Open Mixtral 8x22B", 64000⟩
  else none

/-- Fallback object used when the model id is not in the table
(lines 443-448, 540-545, 579-584): only the cost fields are populated in
the source; the remaining fields are never read on this path. -/
def defaultCostInfo : ModelInfo :=
  ⟨0, ⟨"$0", "0 €"⟩, ⟨"$0", "0 €"⟩, "", 0⟩

/-! ## Cost computation (lines 450-476, 538-569, 586-609) -/

/-- `str.replace(/[^0-9.]/g, '')`. -/
def stripNonNumeric (s : String) : String :=
  String.mk (s.data.filter (fun c => c.isDigit || c = '.'))

/-- JavaScript `parseFloat` on the stripped price strings; `none` models
`NaN` (no parsable leading number). -/
def parseFloatQ (s : String) : Option ℚ :=
  match skipWs s.data with
  | '.' :: rest =>
    let ds := rest.takeWhile (·.isDigit)
    if ds.isEmpty then none
    else some (jq (digitsToNat ds) (10 ^ ds.length))
  | cs => (parseNumberCore cs).map (·.1)

/-- `Number(x.toFixed(4))`: round to 4 decimal places, ties toward
positive infinity as ECMAScript `toFixed` specifies. The source rounds an
IEEE double's decimal expansion; the embedding rounds the exact rational:
`toFixed4_eq_floor` below shows this equals `⌊q * 10000 + 1/2⌋ / 10000`. -/
def toFixed4 (q : ℚ) : ℚ :=
  let scaled := qMul q (jq 10000 1)
  jq ((2 * scaled.num + (scaled.den : ℤ)) / (2 * (scaled.den : ℤ))) 10000

/-- The token-based cost computation shared verbatim by lines 450-464,
547-557 and 586-608: parse the per-million price strings (a completion
price of "-" contributes zero), apply the per-million formula, convert to
cents and round to 4 decimals. `none` models a NaN result. -/
def tokenCostCents (promptTokens completionTokens : Option ℚ)
    (promptPriceStr completionPriceStr : String) : Option ℚ := do
  let promptCostPerMillion ← parseFloatQ (stripNonNumeric promptPriceStr)
  let completionCostPerMillion ←
    if completionPriceStr = "-" then some 0
    else parseFloatQ (stripNonNumeric completionPriceStr)
  let pt ← promptTokens
  let ct ← completionTokens
  pure (toFixed4 (qMul (qAdd (qMul (qDivNat pt 1000000) promptCostPerMillion)
      (qMul (qDivNat ct 1000000) completionCostPerMillion)) (jq 100 1)))

/-- Read a numeric field of the captured usage object for arithmetic. -/
def asNum : Json → Option ℚ
  | .num q => some q
  | _ => none

/-- Streaming-path cost of a captured usage object (lines 441-476 and
538-569): the token formula is applied for every model id — there is no
OCR branch on this path. -/
def costOf (model : String) (currency : Currency) (tokenUsage : Json) : Option ℚ :=
  let info := (mistralModels model).getD defaultCostInfo
  tokenCostCents ((getField tokenUsage "prompt_tokens").bind asNum)
    ((getField tokenUsage "completion_tokens").bind asNum)
    (info.promptCost.forCurrency currency)
    (info.completionCost.forCurrency currency)

/-- Non-streaming cost (lines 594-609): the model-id branch for
`mistral-ocr-latest` bypasses the token formula and yields the zero
placeholder. -/
def nonStreamCost (model : String) (currency : Currency)
    (promptTokens completionTokens : Option ℚ) : Option ℚ :=
  if model = "mistral-ocr-latest" then some 0
  else
    let info := (mistralModels model).getD defaultCostInfo
    tokenCostCents promptTokens completionTokens
      (info.promptCost.forCurrency currency)
      (info.completionCost.forCurrency currency)

/-! ## Stream decoder (mistralChatNode.ts lines 384-399, mistral.ts lines
98-119: the identical line machine) -/

/-- Model of JS `split('\n')`. -/
def splitNl : List Char → List (List Char)
  | [] => [[]]
  | c :: cs =>
    match splitNl cs with
    | [] => [[c]]
    | h :: t => if c = '\n' then [] :: h :: t else (c :: h) :: t

/-- `lines.pop() || ''`: the trailing (possibly incomplete) line. -/
def lastLine (parts : List (List Char)) : List Char := parts.getLastD []

/-- One `reader.read()` iteration: append the decoded text to the buffer,
split on newlines, hold back the last piece as the new buffer. -/
def readStep (buf chunk : List Char) : List Char × List (List Char) :=
  let parts := splitNl (buf ++ chunk)
  (lastLine parts, parts.dropLast)

/-- The read loop: on `done` the remaining buffer is discarded. -/
def decodeLinesAux (buf : List Char) : List (List Char) → List (List Char)
  | [] => []
  | r :: rs =>
    let p := readStep buf r
    p.2 ++ decodeLinesAux p.1 rs

/-- Complete lines produced from a sequence of reads, starting with an
empty buffer. -/
def decodeLines (reads : List String) : List (List Char) :=
  decodeLinesAux [] (reads.map String.data)

def dataColon : List Char := "data: ".data

def startsWithChars : List Char → List Char → Bool
  | [], _ => true
  | _ :: _, [] => false
  | p :: ps, c :: cs => p = c && startsWithChars ps cs

/-- Per-line filtering (lines 392-395): blank lines are skipped, only
`data: `-prefixed lines yield a payload, the payload is the line after
the 6-character prefix. -/
def linePayload (line : List Char) : Option String :=
  if trimChars line = [] then none
  else if startsWithChars dataColon line then some (String.mk (line.drop 6))
  else none

/-- The decoder: payload strings (still including possible `[DONE]`
sentinels, which the chunk loop skips before JSON parsing). -/
def decodePayloads (reads : List String) : List String :=
  (decodeLines reads).filterMap linePayload

/-! ## Streaming fold and finalization (mistralChatNode.ts lines 362-569) -/

/-- Estimate-marked or exact token detail output object. `note := true`
models presence of the estimate note field (line 530); the token fields
hold the JSON values verbatim (`none` models `undefined`). -/
structure TokenDetails where
  note : Bool
  prompt : Option Json
  completion : Option Json
  total : Option Json
  estimatedCostCents : Option ℚ
  currency : Currency

/-- One partial-output snapshot handed to `context.onPartialOutputs`
after a content-bearing chunk (lines 411-479). -/
structure Emission where
  response : String
  message : RivetMessage
  messages : List RivetMessage
  tokenDetails : Option TokenDetails

/-- Loop state of the streaming branch. -/
structure StreamState where
  responseParts : List String
  allChunks : List String
  tokenUsageFound : Bool
  tokenUsage : Json
  emissions : List Emission

/-- Initial `tokenUsage` object (lines 374-378). -/
def initUsage : Json :=
  .obj [("prompt_tokens", .num (jq 0 1)), ("completion_tokens", .num (jq 0 1)),
        ("total_tokens", .num (jq 0 1))]

def initState : StreamState := ⟨[], [], false, initUsage, []⟩

/-- The exact token-detail object built when a usage record is in hand
(lines 466-475 and 559-568: identical construction, no estimate note). -/
def foundDetails (model : String) (currency : Currency) (u : Json) : TokenDetails :=
  { note := false
    prompt := getField u "prompt_tokens"
    completion := getField u "completion_tokens"
    total := getField u "total_tokens"
    estimatedCostCents := costOf model currency u
    currency := currency }

/-- Processing of one `data: ` payload (lines 392-484), parameterized by
the JSON parser so that facts about which payloads are ever parsed can be
stated. `[DONE]` is skipped before anything else; every other payload is
retained in `allChunks`; a parse failure is caught and skipped; a truthy
`usage` with truthy `total_tokens` is captured; the usage capture
survives the caught TypeError thrown when `choices` is absent, because
the source mutates `tokenUsage` before reading `choices[0]`. -/
def streamStep (parse : String → Option Json) (model : String) (currency : Currency)
    (baseMessages : List MistralMessage) (st : StreamState) (dataContent : String) :
    StreamState :=
  if dataContent = "[DONE]" then st
  else
    let st1 := { st with allChunks := st.allChunks ++ [dataContent] }
    match parse dataContent with
    | none => st1
    | some jsonData =>
      let fu : Bool × Json :=
        if truthy (getField jsonData "usage") &&
            truthy ((getField jsonData "usage").bind (fun u => getField u "total_tokens")) then
          (true, (getField jsonData "usage").getD .null)
        else (st1.tokenUsageFound, st1.tokenUsage)
      match choiceZeroField jsonData "delta" with
      | .error _ => { st1 with tokenUsageFound := fu.1, tokenUsage := fu.2 }
      | .ok contentOpt =>
        if truthy contentOpt then
          let text := jsDisplay (contentOpt.getD .null)
          let parts := st1.responseParts ++ [text]
          let currentResponse := String.join parts
          let assistantMessage := createAssistantMessage currentResponse
          let msgs := baseMessages.map mistralToRivet ++ [assistantMessage]
          let det := if fu.1 then some (foundDetails model currency fu.2) else none
          { st1 with
              responseParts := parts
              tokenUsageFound := fu.1
              tokenUsage := fu.2
              emissions := st1.emissions ++ [⟨currentResponse, assistantMessage, msgs, det⟩] }
        else { st1 with tokenUsageFound := fu.1, tokenUsage := fu.2 }

/-- The retrospective per-chunk usage check of the post-stream scan
(lines 495-508): parse failures are skipped, the first chunk with a
truthy usage record and truthy total wins. -/
def scanChunkUsage (parse : String → Option Json) (chunk : String) : Option Json :=
  match parse chunk with
  | none => none
  | some json =>
    if truthy (getField json "usage") &&
        truthy ((getField json "usage").bind (fun u => getField u "total_tokens")) then
      getField json "usage"
    else none

/-- The post-stream scan over all retained chunks (lines 495-508). -/
def firstUsage (parse : String → Option Json) (chunks : List String) : Option Json :=
  chunks.findSome? (scanChunkUsage parse)

/-- `Math.ceil(fullResponse.length / 4)` (line 518). -/
def estimatedCompletionTokens (fullResponse : String) : ℕ :=
  (fullResponse.data.length + 3) / 4

/-- Value of the streaming branch on completion: final output ports plus
the sequence of partial-output snapshots. -/
structure StreamResult where
  response : Option String
  message : Option RivetMessage
  messages : Option (List RivetMessage)
  tokenDetails : TokenDetails
  emissions : List Emission

/-- Post-stream usage recovery and final output assembly (lines 487-569):
inline capture wins; otherwise the retained chunks are re-scanned;
otherwise an estimate (ceil(length/4) completion tokens, zero prompt
tokens, zero cost, estimate note) is synthesized. The response, message
and messages ports hold whatever the last content-bearing chunk wrote, or
stay unset when no content arrived. -/
def finalizeStream (parse : String → Option Json) (model : String) (currency : Currency)
    (st : StreamState) : StreamResult :=
  let fu : Bool × Json :=
    if st.tokenUsageFound then (true, st.tokenUsage)
    else
      match firstUsage parse st.allChunks with
      | some u => (true, u)
      | none => (false, st.tokenUsage)
  let det :=
    if fu.1 then foundDetails model currency fu.2
    else
      let fullResponse := String.join st.responseParts
      let est := estimatedCompletionTokens fullResponse
      { note := true
        prompt := some (.num (jq 0 1))
        completion := some (.num (jq est 1))
        total := some (.num (jq est 1))
        estimatedCostCents := some (jq 0 1)
        currency := currency }
  { response := if st.responseParts = [] then none else some (String.join st.responseParts)
    message := (st.emissions.getLast?).map (·.message)
    messages := (st.emissions.getLast?).map (·.messages)
    tokenDetails := det
    emissions := st.emissions }

/-- The streaming branch over a list of decoded payloads, with an
explicit JSON parser. -/
def processStreamWith (parse : String → Option Json) (model : String) (currency : Currency)
    (baseMessages : List MistralMessage) (payloads : List String) : StreamResult :=
  finalizeStream parse model currency
    (payloads.foldl (streamStep parse model currency baseMessages) initState)

/-- The streaming branch as the source runs it. -/
def processStream (model : String) (currency : Currency)
    (baseMessages : List MistralMessage) (payloads : List String) : StreamResult :=
  processStreamWith parseJson model currency baseMessages payloads

/-- Streaming entry: a missing response body throws (lines 380-382);
otherwise the decoded payloads are folded and the result returned — this
path returns normally even when zero content-bearing chunks arrive. -/
def processStreamBody (model : String) (currency : Currency)
    (baseMessages : List MistralMessage) : Option (List String) → Except NodeError StreamResult
  | none => .error .noResponseBody
  | some payloads => .ok (processStream model currency baseMessages payloads)

/-- The streaming branch in the presence of the host's cancellation
signal. The loop at lines 384-485 contains no read of any abort signal
(the `fetch` at line 347 is issued without a `signal` option and the loop
performs no cancellation check), so the computation is independent of
when the signal fires; the parameter records the firing point (number of
chunks processed before it) purely so that properties about cancellation
timing can be stated. -/
def processStreamUnderSignal (_cancelSignalFiredAfter : Option ℕ) (model : String)
    (currency : Currency) (baseMessages : List MistralMessage) (payloads : List String) :
    StreamResult :=
  processStream model currency baseMessages payloads

/-- Whether a payload produces a content-bearing chunk in the loop:
not the `[DONE]` sentinel, parses as JSON, reading `choices[0]?.delta?.
content` does not throw, and the content is truthy. -/
def isContentWith (parse : String → Option Json) (s : String) : Bool :=
  if s = "[DONE]" then false
  else
    match parse s with
    | none => false
    | some j =>
      match choiceZeroField j "delta" with
      | .error _ => false
      | .ok c => truthy c

/-- Content-bearing payloads under the real parser. -/
def isContentPayload (s : String) : Bool := isContentWith parseJson s

/-- The text a content-bearing payload appends to the response. -/
def payloadText (parse : String → Option Json) (s : String) : Option String :=
  if s = "[DONE]" then none
  else
    match parse s with
    | none => none
    | some j =>
      match choiceZeroField j "delta" with
      | .error _ => none
      | .ok c => if truthy c then some (jsDisplay (c.getD .null)) else none

/-- The usage record a payload contributes in the live loop, if any. -/
def liveUsage (parse : String → Option Json) (s : String) : Option Json :=
  if s = "[DONE]" then none else scanChunkUsage parse s

/-- Live-loop usage under the real parser. -/
def payloadUsage (s : String) : Option Json := liveUsage parseJson s

/-- The payloads retained in `allChunks` by the loop: everything except
the `[DONE]` sentinels. -/
def chunksAdded (l : List String) : List String :=
  l.filter (fun s => decide (s ≠ "[DONE]"))

/-! ## Non-streaming branch (lines 570-656) -/

structure NonStreamResult where
  response : Option Json
  message : RivetMessage
  messages : List RivetMessage
  tokenDetails : TokenDetails

/-- The non-streaming branch on the parsed response body: reads
`choices[0]?.message?.content` (TypeError when `choices` is absent) and
the `usage` fields (TypeError when `usage` is absent), then applies the
cost path with the OCR special case. -/
def processNonStream (model : String) (currency : Currency)
    (baseMessages : List MistralMessage) (json : Json) : Except NodeError NonStreamResult :=
  match choiceZeroField json "message" with
  | .error _ => .error .typeError
  | .ok content =>
    match getField json "usage" with
    | none => .error .typeError
    | some .null => .error .typeError
    | some usage =>
      let promptTokens := (getField usage "prompt_tokens").bind asNum
      let completionTokens := (getField usage "completion_tokens").bind asNum
      let totalCostCents := nonStreamCost model currency promptTokens completionTokens
      let assistantMessage := createAssistantMessage (jsDisplay (content.getD .null))
      .ok
        { response := content
          message := assistantMessage
          messages := baseMessages.map mistralToRivet ++ [assistantMessage]
          tokenDetails :=
            { note := false
              prompt := getField usage "prompt_tokens"
              completion := getField usage "completion_tokens"
              total := getField usage "total_tokens"
              estimatedCostCents := totalCostCents
              currency := currency } }

/-! ## Definitions taken from the specification's wording (for refinement
claims) -/

/-- The cost formula as the spec words it (section 4.5):
`(promptTokens/1_000_000)*promptPricePerMillion +
(completionTokens/1_000_000)*completionPricePerMillion`, in the
currency's major unit, multiplied by 100 and rounded to 4 decimal places
of cents. -/
def estimateCostSpec (promptTokens completionTokens
    promptPricePerMillion completionPricePerMillion : ℚ) : ℚ :=
  toFixed4 ((promptTokens / 1000000 * promptPricePerMillion
    + completionTokens / 1000000 * completionPricePerMillion) * 100)

/-- The claimed messages-mode request list per the spec's wording
(section 4.2): the adapter-converted input list used verbatim, the system
prompt contributing nothing. -/
def messagesModeListSpec (inputMessages : List RivetMessage) : List MistralMessage :=
  inputMessages.map convertToMistralMessage

/-- The complete lines (each originally terminated by a newline) of a
fully concatenated byte stream: everything the line splitter yields
except the trailing piece after the last newline. -/
def completeLines (cs : List Char) : List (List Char) :=
  (splitNl cs).dropLast

/-! ## Bridging lemmas: the computable rational helpers agree with the
standard operations -/

theorem jq_eq (n : ℤ) (d : ℕ) : jq n d = (n : ℚ) / d := by
  rw [jq, Rat.mkRat_eq_divInt, Rat.divInt_eq_div]
  norm_num

theorem qAdd_eq (a b : ℚ) : qAdd a b = a + b := (Rat.add_def' a b).symm

theorem qMul_eq (a b : ℚ) : qMul a b = a * b := (Rat.mul_eq_mkRat a b).symm

theorem qDivNat_eq (a : ℚ) (n : ℕ) : qDivNat a n = a / n := by
  rw [qDivNat, Rat.mkRat_eq_divInt, Rat.divInt_eq_div]
  rcases Nat.eq_zero_or_pos n with h | h
  · simp [h]
  · have hd : ((a.den : ℚ)) ≠ 0 := by
      exact_mod_cast a.den_nz
    have hn : ((n : ℚ)) ≠ 0 := by
      exact_mod_cast Nat.pos_iff_ne_zero.mp h
    push_cast
    rw [div_mul_eq_div_div]
    rw [Rat.num_div_den a]

theorem toFixed4_eq_floor (q : ℚ) : toFixed4 q = (⌊q * 10000 + 1 / 2⌋ : ℚ) / 10000 := by
  rw [toFixed4, jq_eq]
  set s : ℚ := qMul q (jq 10000 1) with hsdef
  have hs : s = q * 10000 := by
    rw [hsdef, qMul_eq, jq_eq]
    norm_num
  have hd : ((s.den : ℚ)) ≠ 0 := by
    exact_mod_cast s.den_nz
  have hnum : (s.num : ℚ) = s * s.den := (div_eq_iff hd).mp (Rat.num_div_den s)
  have hrepr : s + 1 / 2 = ((2 * s.num + (s.den : ℤ) : ℤ) : ℚ) / ((2 * s.den : ℕ) : ℚ) := by
    push_cast
    field_simp
    linear_combination (-4 : ℚ) * hnum
  have hfloor : (2 * s.num + (s.den : ℤ)) / (2 * (s.den : ℤ)) = ⌊s + 1 / 2⌋ := by
    rw [hrepr, Rat.floor_intCast_div_natCast]
    push_cast
    rfl
  rw [hfloor, hs]
  norm_num

/-! ## Per-step characterization of the streaming loop -/

theorem truthy_eq_true_iff (o : Option Json) : truthy o = true → ∃ v, o = some v := by
  cases o with
  | none => intro h; cases h
  | some v => intro _; exact ⟨v, rfl⟩

theorem chunksAdded_single (s : String) :
    chunksAdded [s] = if s = "[DONE]" then [] else [s] := by
  by_cases h : s = "[DONE]" <;> simp [chunksAdded, h]

theorem streamStep_usage (parse : String → Option Json) (m : String) (c : Currency)
    (b : List MistralMessage) (st : StreamState) (s : String) :
    ((streamStep parse m c b st s).tokenUsageFound, (streamStep parse m c b st s).tokenUsage)
      = (match liveUsage parse s with
          | some u => (true, u)
          | none => (st.tokenUsageFound, st.tokenUsage)) := by
  by_cases hd : s = "[DONE]"
  · simp [streamStep, liveUsage, hd]
  · cases hp : parse s with
    | none => simp [streamStep, liveUsage, scanChunkUsage, hd, hp]
    | some j =>
      cases hg : getField j "usage" with
      | none =>
        have hb : truthy (getField j "usage") = false := by rw [hg]; rfl
        rcases hcz : choiceZeroField j "delta" with he | copt
        · simp [streamStep, liveUsage, scanChunkUsage, hd, hp, hb, hcz]
        · cases ht : truthy copt <;>
            simp [streamStep, liveUsage, scanChunkUsage, hd, hp, hb, hcz, ht]
      | some u =>
        by_cases hcnd : truthy (some u) = true ∧ truthy (getField u "total_tokens") = true
        · rcases hcz : choiceZeroField j "delta" with he | copt
          · simp [streamStep, liveUsage, scanChunkUsage, hd, hp, hg, hcz, hcnd]
          · cases ht : truthy copt <;>
              simp [streamStep, liveUsage, scanChunkUsage, hd, hp, hg, hcz, ht, hcnd]
        · rcases hcz : choiceZeroField j "delta" with he | copt
          · simp [streamStep, liveUsage, scanChunkUsage, hd, hp, hg, hcz, hcnd]
          · cases ht : truthy copt <;>
              simp [streamStep, liveUsage, scanChunkUsage, hd, hp, hg, hcz, ht, hcnd]

theorem streamStep_parts (parse : String → Option Json) (m : String) (c : Currency)
    (b : List MistralMessage) (st : StreamState) (s : String) :
    (streamStep parse m c b st s).responseParts
      = st.responseParts ++ (match payloadText parse s with
          | some t => [t]
          | none => []) := by
  by_cases hd : s = "[DONE]"
  · simp [streamStep, payloadText, hd]
  · cases hp : parse s with
    | none => simp [streamStep, payloadText, hd, hp]
    | some j =>
      rcases hcz : choiceZeroField j "delta" with he | copt
      · simp [streamStep, payloadText, hd, hp, hcz]
      · cases ht : truthy copt <;>
          simp [streamStep, payloadText, hd, hp, hcz, ht]

theorem streamStep_allChunks (parse : String → Option Json) (m : String) (c : Currency)
    (b : List MistralMessage) (st : StreamState) (s : String) :
    (streamStep parse m c b st s).allChunks = st.allChunks ++ chunksAdded [s] := by
  rw [chunksAdded_single]
  by_cases hd : s = "[DONE]"
  · simp [streamStep, hd]
  · cases hp : parse s with
    | none => simp [streamStep, hd, hp]
    | some j =>
      rcases hcz : choiceZeroField j "delta" with he | copt
      · simp [streamStep, hd, hp, hcz]
      · cases ht : truthy copt <;> simp [streamStep, hd, hp, hcz, ht]

theorem streamStep_emissions_length (parse : String → Option Json) (m : String) (c : Currency)
    (b : List MistralMessage) (st : StreamState) (s : String) :
    (streamStep parse m c b st s).emissions.length
      = st.emissions.length + (if isContentWith parse s then 1 else 0) := by
  by_cases hd : s = "[DONE]"
  · simp [streamStep, isContentWith, hd]
  · cases hp : parse s with
    | none => simp [streamStep, isContentWith, hd, hp]
    | some j =>
      rcases hcz : choiceZeroField j "delta" with he | copt
      · simp [streamStep, isContentWith, hd, hp, hcz]
      · cases ht : truthy copt <;>
          simp [streamStep, isContentWith, hd, hp, hcz, ht]

/-! ## Monotonicity of partial-output emissions -/

theorem data_append (a b : String) : (a ++ b).data = a.data ++ b.data := rfl

theorem join_snoc (l : List String) (s : String) :
    String.join (l ++ [s]) = String.join l ++ s := by
  rw [String.join, String.join, List.foldl_append]
  rfl

/-- The pairwise ordering the spec demands of successive emissions: the
response grows by prefixing, the leading messages are identical, and they
open the later message list. -/
def respRel (e e' : Emission) : Prop :=
  e.response.data <+: e'.response.data ∧
  e.messages.dropLast = e'.messages.dropLast ∧
  e.messages.dropLast <+: e'.messages

/-- Loop invariant: emitted snapshots are pairwise orderly, each has the
fixed base messages plus one trailing assistant message holding exactly
its response text, and each response is a prefix of the running text. -/
def StreamInv (b : List MistralMessage) (st : StreamState) : Prop :=
  List.Chain' respRel st.emissions ∧
  ∀ e ∈ st.emissions,
    e.messages = b.map mistralToRivet ++ [createAssistantMessage e.response] ∧
    e.response.data <+: (String.join st.responseParts).data

theorem streamStep_emissions_of_none (parse : String → Option Json) (m : String)
    (c : Currency) (b : List MistralMessage) (st : StreamState) (s : String)
    (hpt : payloadText parse s = none) :
    (streamStep parse m c b st s).emissions = st.emissions := by
  by_cases hd : s = "[DONE]"
  · simp [streamStep, hd]
  · cases hp : parse s with
    | none => simp [streamStep, hd, hp]
    | some j =>
      rcases hcz : choiceZeroField j "delta" with he | copt
      · simp [streamStep, hd, hp, hcz]
      · cases ht : truthy copt with
        | false => simp [streamStep, hd, hp, hcz, ht]
        | true =>
          simp only [payloadText, if_neg hd, hp, hcz, ht] at hpt
          simp at hpt

theorem streamStep_emissions_content (parse : String → Option Json) (m : String)
    (c : Currency) (b : List MistralMessage) (st : StreamState) (s : String) (t : String)
    (hpt : payloadText parse s = some t) :
    ∃ dtl, (streamStep parse m c b st s).emissions = st.emissions ++
      [{ response := String.join (st.responseParts ++ [t]),
         message := createAssistantMessage (String.join (st.responseParts ++ [t])),
         messages := b.map mistralToRivet
           ++ [createAssistantMessage (String.join (st.responseParts ++ [t]))],
         tokenDetails := dtl }] := by
  by_cases hd : s = "[DONE]"
  · rw [payloadText, if_pos hd] at hpt
    cases hpt
  · cases hp : parse s with
    | none =>
      simp only [payloadText, if_neg hd, hp] at hpt
      cases hpt
    | some j =>
      rcases hcz : choiceZeroField j "delta" with he | copt
      · simp only [payloadText, if_neg hd, hp, hcz] at hpt
        cases hpt
      · cases ht : truthy copt with
        | false =>
          simp only [payloadText, if_neg hd, hp, hcz, ht] at hpt
          simp at hpt
        | true =>
          simp only [payloadText, if_neg hd, hp, hcz, ht, if_pos,
            Option.some.injEq] at hpt
          subst hpt
          by_cases hb : (truthy (getField j "usage") &&
              truthy ((getField j "usage").bind (fun u => getField u "total_tokens"))) = true
          · exact ⟨some (foundDetails m c ((getField j "usage").getD .null)),
              by simp [streamStep, hd, hp, hcz, ht, hb]⟩
          · exact ⟨if st.tokenUsageFound then some (foundDetails m c st.tokenUsage) else none,
              by simp [streamStep, hd, hp, hcz, ht, hb]⟩

theorem streamStep_inv (parse : String → Option Json) (m : String) (c : Currency)
    (b : List MistralMessage) (st : StreamState) (s : String)
    (h : StreamInv b st) : StreamInv b (streamStep parse m c b st s) := by
  obtain ⟨hchain, hall⟩ := h
  have hq := streamStep_parts parse m c b st s
  cases hpt : payloadText parse s with
  | none =>
    have he := streamStep_emissions_of_none parse m c b st s hpt
    rw [hpt] at hq
    constructor
    · rw [he]
      exact hchain
    · intro e hmem
      rw [he] at hmem
      obtain ⟨h1, h2⟩ := hall e hmem
      refine ⟨h1, ?_⟩
      rw [hq, List.append_nil]
      exact h2
  | some t =>
    obtain ⟨dtl, he⟩ := streamStep_emissions_content parse m c b st s t hpt
    rw [hpt] at hq
    constructor
    · rw [he, List.chain'_append]
      refine ⟨hchain, List.chain'_singleton _, ?_⟩
      intro x hx y hy
      simp only [List.head?_cons, Option.mem_def, Option.some.injEq] at hy
      subst hy
      have hxmem : x ∈ st.emissions := by
        rcases List.mem_getLast?_eq_getLast hx with ⟨hne, hx'⟩
        exact hx' ▸ List.getLast_mem hne
      obtain ⟨hshape, hpref⟩ := hall x hxmem
      refine ⟨?_, ?_, ?_⟩
      · calc x.response.data
            <+: (String.join st.responseParts).data := hpref
          _ <+: (String.join (st.responseParts ++ [t])).data := by
              rw [join_snoc, data_append]
              exact ⟨_, rfl⟩
      · rw [hshape]
        rw [List.dropLast_concat, List.dropLast_concat]
      · rw [hshape, List.dropLast_concat]
        exact ⟨_, rfl⟩
    · intro e hmem
      rw [he] at hmem
      rcases List.mem_append.mp hmem with hold | hnew
      · obtain ⟨hshape, hpref⟩ := hall e hold
        refine ⟨hshape, ?_⟩
        rw [hq]
        calc e.response.data
            <+: (String.join st.responseParts).data := hpref
          _ <+: (String.join (st.responseParts ++ [t])).data := by
              rw [join_snoc, data_append]
              exact ⟨_, rfl⟩
      · rcases List.mem_singleton.mp hnew with rfl
        rw [hq]
        exact ⟨rfl, ⟨[], List.append_nil _⟩⟩

theorem foldl_inv (parse : String → Option Json) (m : String) (c : Currency)
    (b : List MistralMessage) :
    ∀ (l : List String) (st : StreamState), StreamInv b st →
      StreamInv b (List.foldl (streamStep parse m c b) st l) := by
  intro l
  induction l with
  | nil => intro st h; exact h
  | cons s rest ih =>
    intro st h
    exact ih _ (streamStep_inv parse m c b st s h)

/-! ## Fold-level characterizations -/

theorem foldl_parts (parse : String → Option Json) (m : String) (c : Currency)
    (b : List MistralMessage) :
    ∀ (l : List String) (st : StreamState),
      (List.foldl (streamStep parse m c b) st l).responseParts
        = st.responseParts ++ l.filterMap (payloadText parse) := by
  intro l
  induction l with
  | nil => intro st; simp
  | cons s rest ih =>
    intro st
    rw [List.foldl_cons, ih, streamStep_parts, List.filterMap_cons]
    cases hpt : payloadText parse s <;> simp [hpt]

theorem foldl_allChunks (parse : String → Option Json) (m : String) (c : Currency)
    (b : List MistralMessage) :
    ∀ (l : List String) (st : StreamState),
      (List.foldl (streamStep parse m c b) st l).allChunks
        = st.allChunks ++ chunksAdded l := by
  intro l
  induction l with
  | nil => intro st; simp [chunksAdded]
  | cons s rest ih =>
    intro st
    rw [List.foldl_cons, ih, streamStep_allChunks]
    by_cases hd : s = "[DONE]" <;> simp [chunksAdded, hd]

theorem foldl_emissions_length (parse : String → Option Json) (m : String) (c : Currency)
    (b : List MistralMessage) :
    ∀ (l : List String) (st : StreamState),
      (List.foldl (streamStep parse m c b) st l).emissions.length
        = st.emissions.length + (l.filter (isContentWith parse)).length := by
  intro l
  induction l with
  | nil => intro st; simp
  | cons s rest ih =>
    intro st
    rw [List.foldl_cons, ih, streamStep_emissions_length]
    by_cases hc : isContentWith parse s <;> simp [hc] <;> omega

/-- The (found, usage) pair as a fold over the payloads' live usage
contributions. -/
def lastUsage (parse : String → Option Json) (l : List String) (d : Bool × Json) :
    Bool × Json :=
  l.foldl (fun acc s =>
    match liveUsage parse s with
    | some u => (true, u)
    | none => acc) d

theorem foldl_usage (parse : String → Option Json) (m : String) (c : Currency)
    (b : List MistralMessage) :
    ∀ (l : List String) (st : StreamState),
      ((List.foldl (streamStep parse m c b) st l).tokenUsageFound,
        (List.foldl (streamStep parse m c b) st l).tokenUsage)
        = lastUsage parse l (st.tokenUsageFound, st.tokenUsage) := by
  intro l
  induction l with
  | nil => intro st; rfl
  | cons s rest ih =>
    intro st
    rw [List.foldl_cons, ih (streamStep parse m c b st s), streamStep_usage parse m c b st s]
    simp only [lastUsage, List.foldl_cons]

theorem lastUsage_of_all_none (parse : String → Option Json) :
    ∀ (l : List String) (d : Bool × Json), (∀ s ∈ l, liveUsage parse s = none) →
      lastUsage parse l d = d := by
  intro l
  induction l with
  | nil => intro d _; rfl
  | cons s rest ih =>
    intro d h
    rw [lastUsage, List.foldl_cons, h s (by simp)]
    exact ih d (fun x hx => h x (by simp [hx]))

theorem chunksAdded_cons (s : String) (l : List String) :
    chunksAdded (s :: l) = chunksAdded [s] ++ chunksAdded l := by
  by_cases hd : s = "[DONE]" <;> simp [chunksAdded, hd]

theorem streamStep_chunks_param (parse : String → Option Json) (m : String) (c : Currency)
    (b : List MistralMessage) (st : StreamState) (X : List String) (s : String) :
    streamStep parse m c b { st with allChunks := X } s
      = { streamStep parse m c b st s with allChunks := X ++ chunksAdded [s] } := by
  by_cases hd : s = "[DONE]"
  · simp [streamStep, chunksAdded, hd]
  · cases hp : parse s with
    | none => simp [streamStep, chunksAdded, hd, hp]
    | some j =>
      rcases hcz : choiceZeroField j "delta" with he | copt
      · simp [streamStep, chunksAdded, hd, hp, hcz]
      · cases ht : truthy copt <;> simp [streamStep, chunksAdded, hd, hp, hcz, ht]

theorem foldl_chunks_param (parse : String → Option Json) (m : String) (c : Currency)
    (b : List MistralMessage) :
    ∀ (l : List String) (st : StreamState) (X : List String),
      List.foldl (streamStep parse m c b) { st with allChunks := X } l
        = { List.foldl (streamStep parse m c b) st l with allChunks := X ++ chunksAdded l } := by
  intro l
  induction l with
  | nil => intro st X; simp [chunksAdded]
  | cons s rest ih =>
    intro st X
    rw [List.foldl_cons, streamStep_chunks_param, ih, List.foldl_cons,
      chunksAdded_cons s rest, List.append_assoc]

theorem findSome?_middle_none {α β : Type _} (f : α → Option β) (A D : List α) (s : α)
    (hf : f s = none) :
    (A ++ s :: D).findSome? f = (A ++ D).findSome? f := by
  induction A with
  | nil => simp [List.findSome?_cons, hf]
  | cons a A ih => cases hfa : f a <;> simp [List.findSome?_cons, hfa, ih]

theorem finalizeStream_congr (parse : String → Option Json) (m : String) (c : Currency)
    (st st' : StreamState) (h1 : st.responseParts = st'.responseParts)
    (h2 : st.tokenUsageFound = st'.tokenUsageFound) (h3 : st.tokenUsage = st'.tokenUsage)
    (h4 : st.emissions = st'.emissions)
    (h5 : firstUsage parse st.allChunks = firstUsage parse st'.allChunks) :
    finalizeStream parse m c st = finalizeStream parse m c st' := by
  rw [finalizeStream, finalizeStream, h1, h2, h3, h4, h5]

/-! ## Shared concrete payloads for witnesses and counterexamples -/

/-- A chunk whose delta content is "Hi". -/
def hiChunk : String := "\x7b\"choices\":[\x7b\"delta\":\x7b\"content\":\"Hi\"\x7d\x7d]\x7d"

/-- A chunk whose delta content is " there". -/
def thereChunk : String := "\x7b\"choices\":[\x7b\"delta\":\x7b\"content\":\" there\"\x7d\x7d]\x7d"

/-- The spec's streaming byte sequence (section 8, property 3). -/
def c8bytes : String :=
  "data: \x7b\"choices\":[\x7b\"delta\":\x7b\"content\":\"Hi\"\x7d\x7d]\x7d\n\ndata: \x7b\"choices\":[\x7b\"delta\":\x7b\"content\":\" there\"\x7d\x7d]\x7d\n\ndata: [DONE]\n\n"

/-- A chunk carrying both content and a usage record with nonzero total. -/
def usageChunk : String :=
  "\x7b\"choices\":[\x7b\"delta\":\x7b\"content\":\"Hi\"\x7d\x7d],\"usage\":\x7b\"prompt_tokens\":5,\"completion_tokens\":7,\"total_tokens\":12\x7d\x7d"

/-- A chunk whose usage record has `total_tokens` equal to zero. -/
def zeroTotalChunk : String :=
  "\x7b\"usage\":\x7b\"prompt_tokens\":7,\"completion_tokens\":0,\"total_tokens\":0\x7d,\"choices\":[\x7b\"delta\":\x7b\"content\":\"Hi\"\x7d\x7d]\x7d"

/-- A usage chunk with one million prompt tokens, for the OCR cost case. -/
def ocrUsageChunk : String :=
  "\x7b\"choices\":[\x7b\"delta\":\x7b\"content\":\"Hi\"\x7d\x7d],\"usage\":\x7b\"prompt_tokens\":1000000,\"completion_tokens\":0,\"total_tokens\":1000000\x7d\x7d"

/-- A well-formed non-streaming response body for the OCR model. -/
def ocrBody : Json :=
  .obj [("choices", .arr [.obj [("message", .obj [("content", .str "ok")])]]),
        ("usage", .obj [("prompt_tokens", .num (jq 1000000 1)),
                        ("completion_tokens", .num (jq 0 1)),
                        ("total_tokens", .num (jq 1000000 1))])]

/-! ## C2 -/

/-- C2 counterexample: with the messages input enabled, a non-empty
system prompt and the single input message `user "hi"`, the outbound list
is `[system prompt-message, user "hi"]`, which differs from the
adapter-converted input list alone — the system prompt is not ignored. -/
theorem c2_counterexample :
    buildMessages "You are a helpful assistant." true (some [⟨"user", "hi"⟩]) none
      = Except.ok [⟨"system", "You are a helpful assistant."⟩, ⟨"user", "hi"⟩] ∧
    ([⟨"system", "You are a helpful assistant."⟩, ⟨"user", "hi"⟩] : List MistralMessage)
      ≠ messagesModeListSpec [⟨"user", "hi"⟩] := by
  refine ⟨rfl, ?_⟩
  decide

/-- C2 (amended): in messages-input mode the outbound request's message
list is the resolved system prompt's message (present exactly when the
prompt trims non-blank, i.e. injected the same way as in prompt mode)
followed by the input messages converted by the verbatim role cast — not
the adapter-converted input list alone. -/
theorem c2_messages_mode_list :
    (∀ (systemPrompt : String) (l : List RivetMessage),
      buildMessages systemPrompt true (some l) none
        = Except.ok (initialMessages systemPrompt ++ l.map castMessage)) ∧
    (∀ systemPrompt : String, jsTrim systemPrompt ≠ "" →
      initialMessages systemPrompt = [⟨"system", systemPrompt⟩]) ∧
    (∀ systemPrompt : String, jsTrim systemPrompt = "" →
      initialMessages systemPrompt = []) := by
  refine ⟨fun _ _ => rfl, fun sp h => ?_, fun sp h => ?_⟩
  · rw [initialMessages, if_pos h]
  · rw [initialMessages, if_neg (by simp [h])]

/-- C2 witness: the amended statement evaluated at the counterexample's
inputs. -/
theorem c2_witness :
    buildMessages "You are a helpful assistant." true (some [⟨"user", "hi"⟩]) none
      = Except.ok (initialMessages "You are a helpful assistant."
          ++ [(⟨"user", "hi"⟩ : RivetMessage)].map castMessage) ∧
    initialMessages "You are a helpful assistant."
      = [⟨"system", "You are a helpful assistant."⟩] :=
  ⟨c2_messages_mode_list.1 "You are a helpful assistant." [⟨"user", "hi"⟩],
   c2_messages_mode_list.2.1 "You are a helpful assistant." (by decide)⟩

/-! ## C10 -/

/-- C10: in messages-input mode each input message's tag is copied
verbatim as the wire role by the cast, with no mapping — a tag outside
system/user/assistant is forwarded unchanged — while the defaulting of
unknown tags to `user` happens only through `convertToMistralMessage`,
which prompt mode uses. -/
theorem c10_role_cast :
    (∀ (systemPrompt : String) (l : List RivetMessage),
      buildMessages systemPrompt true (some l) none
        = Except.ok (initialMessages systemPrompt ++ l.map castMessage)) ∧
    (∀ m : RivetMessage, (castMessage m).role = m.type) ∧
    (∀ m : RivetMessage, m.type ≠ "system" → m.type ≠ "user" → m.type ≠ "assistant" →
      (convertToMistralMessage m).role = "user") := by
  refine ⟨fun _ _ => rfl, fun m => rfl, fun m h1 h2 h3 => ?_⟩
  unfold convertToMistralMessage
  split
  · exact absurd (by assumption) h1
  · exact absurd (by assumption) h2
  · exact absurd (by assumption) h3
  · rfl

/-- C10 witness: a message tagged `tool` keeps role `tool` through the
cast used in messages mode, and maps to `user` through the adapter. -/
theorem c10_witness :
    buildMessages "" true (some [⟨"tool", "x"⟩]) none
      = Except.ok (initialMessages "" ++ [(⟨"tool", "x"⟩ : RivetMessage)].map castMessage) ∧
    (castMessage ⟨"tool", "x"⟩).role = "tool" ∧
    (convertToMistralMessage ⟨"tool", "x"⟩).role = "user" :=
  ⟨c10_role_cast.1 "" [⟨"tool", "x"⟩],
   c10_role_cast.2.1 ⟨"tool", "x"⟩,
   c10_role_cast.2.2 ⟨"tool", "x"⟩ (by decide) (by decide) (by decide)⟩

/-! ## C6 -/

/-- C6 counterexample: in the streaming path the OCR model id is not
special-cased — with a usage record of one million prompt tokens the
token formula is applied to the numeral scraped from the page-price
string ("1000 Pages / $1" parses to 10001 per million), giving a cost of
1000100 cents, not the zero placeholder. -/
theorem c6_counterexample :
    (processStream "mistral-ocr-latest" Currency.USD [] [ocrUsageChunk]).tokenDetails.estimatedCostCents
      = some (jq 1000100 1) ∧
    (jq 1000100 1 : ℚ) ≠ 0 := by
  refine ⟨by decide, by decide⟩

/-- C6 (amended): the model-id branch that bypasses the token formula
with a zero placeholder cost exists only in the non-streaming path; the
streaming path applies the token-based formula for the OCR model as for
any other. -/
theorem c6_ocr_bypass_nonstream_only :
    (∀ (currency : Currency) (pt ct : Option ℚ),
      nonStreamCost "mistral-ocr-latest" currency pt ct = some 0) ∧
    ((processNonStream "mistral-ocr-latest" Currency.USD [] ocrBody).map
        (fun r => r.tokenDetails.estimatedCostCents) = Except.ok (some 0)) ∧
    (∀ (currency : Currency) (u : Json),
      costOf "mistral-ocr-latest" currency u
        = tokenCostCents ((getField u "prompt_tokens").bind asNum)
            ((getField u "completion_tokens").bind asNum)
            (((mistralModels "mistral-ocr-latest").getD defaultCostInfo).promptCost.forCurrency currency)
            (((mistralModels "mistral-ocr-latest").getD defaultCostInfo).completionCost.forCurrency currency)) := by
  refine ⟨fun currency pt ct => rfl, rfl, fun currency u => rfl⟩

/-! ## C7 -/

/-- C7: the cost computation equals the spec formula
`(promptTokens/1e6)*promptPrice + (completionTokens/1e6)*completionPrice`
in major units, times 100, rounded to 4 decimal places of cents (ties
toward positive infinity, `toFixed4 q = ⌊q*10000 + 1/2⌋/10000`); at one
million prompt tokens, zero completion tokens and the USD prompt price
"$2" per million it yields exactly 200 cents. -/
theorem c7_cost_formula :
    (∀ (pt ct : ℚ) (ps cs : String) (pP cP : ℚ),
      parseFloatQ (stripNonNumeric ps) = some pP →
      (if cs = "-" then some 0 else parseFloatQ (stripNonNumeric cs)) = some cP →
      tokenCostCents (some pt) (some ct) ps cs = some (estimateCostSpec pt ct pP cP)) ∧
    (∀ q : ℚ, toFixed4 q = (⌊q * 10000 + 1 / 2⌋ : ℚ) / 10000) ∧
    tokenCostCents (some (jq 1000000 1)) (some (jq 0 1)) "$2" "-" = some (jq 200 1) ∧
    jq 1000000 1 = 1000000 ∧ jq 0 1 = 0 ∧ jq 200 1 = 200 ∧
    costOf "mistral-large-latest" Currency.USD
      (.obj [("prompt_tokens", .num (jq 1000000 1)), ("completion_tokens", .num (jq 0 1)),
             ("total_tokens", .num (jq 1000000 1))]) = some (jq 200 1) := by
  refine ⟨?_, toFixed4_eq_floor, by decide, by norm_num [jq_eq], by norm_num [jq_eq],
    by norm_num [jq_eq], by decide⟩
  intro pt ct ps cs pP cP h1 h2
  have hval : toFixed4 (qMul (qAdd (qMul (qDivNat pt 1000000) pP)
      (qMul (qDivNat ct 1000000) cP)) (jq 100 1)) = estimateCostSpec pt ct pP cP := by
    rw [estimateCostSpec]
    congr 1
    rw [qMul_eq, qAdd_eq, qMul_eq, qMul_eq, qDivNat_eq, qDivNat_eq, jq_eq]
    push_cast
    ring
  by_cases hcs : cs = "-"
  · rw [if_pos hcs] at h2
    obtain rfl : (0 : ℚ) = cP := Option.some.inj h2
    simp [tokenCostCents, hcs, h1, hval]
  · rw [if_neg hcs] at h2
    simp [tokenCostCents, hcs, h1, h2, hval]

/-- C7 witness: the refinement applied at the spec's concrete instance,
with both price-string hypotheses discharged by evaluation. -/
theorem c7_witness :
    tokenCostCents (some (jq 1000000 1)) (some (jq 0 1)) "$2" "-"
      = some (estimateCostSpec (jq 1000000 1) (jq 0 1) (jq 2 1) 0) :=
  c7_cost_formula.1 (jq 1000000 1) (jq 0 1) "$2" "-" (jq 2 1) 0 rfl rfl

/-! ## C3 -/

/-- C3 counterexample: with the cancellation signal fired after the first
chunk, the second chunk is still processed and emitted (two emissions,
response "Hi there") and the invocation completes normally — it does not
stop, and no cancellation-specific failure exists on this path. -/
theorem c3_counterexample :
    (processStreamUnderSignal (some 1) "mistral-large-latest" Currency.USD []
        [hiChunk, thereChunk]).emissions.length = 2 ∧
    (processStreamUnderSignal (some 1) "mistral-large-latest" Currency.USD []
        [hiChunk, thereChunk]).response = some "Hi there" := by
  refine ⟨rfl, by decide⟩

/-- C3 (amended): the streaming loop never observes the cancellation
signal — the result is the same no matter when (or whether) the signal
fires, every content-bearing chunk in the stream produces an emission,
and the invocation completes normally. -/
theorem c3_signal_not_observed (cancelAfter : Option ℕ) (model : String) (currency : Currency)
    (base : List MistralMessage) (payloads : List String) :
    processStreamUnderSignal cancelAfter model currency base payloads
      = processStream model currency base payloads ∧
    (processStreamUnderSignal cancelAfter model currency base payloads).emissions.length
      = (payloads.filter isContentPayload).length := by
  refine ⟨rfl, ?_⟩
  have hfin : (processStreamUnderSignal cancelAfter model currency base payloads).emissions
      = (List.foldl (streamStep parseJson model currency base) initState payloads).emissions :=
    rfl
  rw [hfin, foldl_emissions_length]
  have hsame : List.filter (isContentWith parseJson) payloads
      = List.filter isContentPayload payloads := rfl
  rw [hsame]
  simp [initState]

/-! ## C5 -/

/-- C5: within one streaming invocation the emitted partial results are
strictly ordered and monotonically growing — for every pair of successive
emissions, the earlier response text is a prefix of the later one, the
message lists agree up to the trailing assistant message (no message
removed or reordered), and those leading messages open the later list. -/
theorem c5_emissions_monotone (model : String) (currency : Currency)
    (base : List MistralMessage) (payloads : List String) :
    List.Chain' (fun e e' =>
        e.response.data <+: e'.response.data ∧
        e.messages.dropLast = e'.messages.dropLast ∧
        e.messages.dropLast <+: e'.messages)
      (processStream model currency base payloads).emissions := by
  have hinv : StreamInv base initState := by
    refine ⟨List.chain'_nil, ?_⟩
    intro e he
    simp [initState] at he
  have h := foldl_inv parseJson model currency base payloads initState hinv
  have hfin : (processStream model currency base payloads).emissions
      = (List.foldl (streamStep parseJson model currency base) initState payloads).emissions :=
    rfl
  rw [hfin]
  exact h.1

/-! ## Finalization helpers -/

theorem payloadText_isSome (parse : String → Option Json) (s : String) :
    (payloadText parse s).isSome = isContentWith parse s := by
  by_cases hd : s = "[DONE]"
  · simp [payloadText, isContentWith, hd]
  · cases hp : parse s with
    | none => simp [payloadText, isContentWith, hd, hp]
    | some j =>
      rcases hcz : choiceZeroField j "delta" with he | copt
      · simp [payloadText, isContentWith, hd, hp, hcz]
      · cases ht : truthy copt <;> simp [payloadText, isContentWith, hd, hp, hcz, ht]

theorem findSome?_eq_none_of {α β : Type _} (f : α → Option β) :
    ∀ l : List α, (∀ x ∈ l, f x = none) → l.findSome? f = none := by
  intro l
  induction l with
  | nil => intro _; rfl
  | cons a l ih =>
    intro h
    rw [List.findSome?_cons, h a (by simp)]
    exact ih (fun x hx => h x (by simp [hx]))

theorem mem_chunksAdded {s : String} {l : List String} (h : s ∈ chunksAdded l) :
    s ∈ l ∧ s ≠ "[DONE]" := by
  rw [chunksAdded, List.mem_filter] at h
  exact ⟨h.1, by simpa using h.2⟩

theorem finalize_response (parse : String → Option Json) (m : String) (c : Currency)
    (st : StreamState) :
    (finalizeStream parse m c st).response
      = if st.responseParts = [] then none else some (String.join st.responseParts) := rfl

theorem finalize_emissions (parse : String → Option Json) (m : String) (c : Currency)
    (st : StreamState) :
    (finalizeStream parse m c st).emissions = st.emissions := rfl

theorem finalize_found (parse : String → Option Json) (m : String) (c : Currency)
    (st : StreamState) (hf : st.tokenUsageFound = true) :
    (finalizeStream parse m c st).tokenDetails = foundDetails m c st.tokenUsage := by
  simp [finalizeStream, hf]

theorem finalize_estimate (parse : String → Option Json) (m : String) (c : Currency)
    (st : StreamState) (hf : st.tokenUsageFound = false)
    (hscan : firstUsage parse st.allChunks = none) :
    (finalizeStream parse m c st).tokenDetails
      = { note := true
          prompt := some (.num (jq 0 1))
          completion := some (.num (jq (estimatedCompletionTokens
            (String.join st.responseParts)) 1))
          total := some (.num (jq (estimatedCompletionTokens
            (String.join st.responseParts)) 1))
          estimatedCostCents := some (jq 0 1)
          currency := c } := by
  simp [finalizeStream, hf, hscan]

theorem lastUsage_append (parse : String → Option Json) (A B : List String) (d : Bool × Json) :
    lastUsage parse (A ++ B) d = lastUsage parse B (lastUsage parse A d) := by
  rw [lastUsage, lastUsage, lastUsage, List.foldl_append]

/-! ## C1 -/

/-- C1 counterexample: a streaming invocation that receives zero
content-bearing chunks does not fail — it returns a normal result with no
response output set and an estimate-marked token-detail object. -/
theorem c1_counterexample :
    processStreamBody "mistral-large-latest" Currency.USD [] (some ["[DONE]"])
      = Except.ok (processStream "mistral-large-latest" Currency.USD [] ["[DONE]"]) ∧
    (processStream "mistral-large-latest" Currency.USD [] ["[DONE]"]).response = none ∧
    (processStream "mistral-large-latest" Currency.USD [] ["[DONE]"]).tokenDetails.note
      = true := by
  refine ⟨rfl, by decide, rfl⟩

/-- C1 (amended): when zero content-bearing chunks are received, the
streaming invocation returns normally rather than failing with any
"empty response" error: the response output stays unset, no partial
output is emitted, and (when no usage record appears either) the
token-detail output is the zero estimate marked with the estimate note. -/
theorem c1_zero_content_returns (model : String) (currency : Currency)
    (base : List MistralMessage) (payloads : List String)
    (hc : ∀ s ∈ payloads, isContentPayload s = false) :
    processStreamBody model currency base (some payloads)
        = Except.ok (processStream model currency base payloads) ∧
    (processStream model currency base payloads).response = none ∧
    (processStream model currency base payloads).emissions = [] ∧
    ((∀ s ∈ payloads, payloadUsage s = none) →
      (processStream model currency base payloads).tokenDetails
        = { note := true
            prompt := some (.num (jq 0 1))
            completion := some (.num (jq 0 1))
            total := some (.num (jq 0 1))
            estimatedCostCents := some (jq 0 1)
            currency := currency }) := by
  have hps : processStream model currency base payloads
      = finalizeStream parseJson model currency
          (List.foldl (streamStep parseJson model currency base) initState payloads) := rfl
  set ST := List.foldl (streamStep parseJson model currency base) initState payloads
    with hSTdef
  have hfil : payloads.filterMap (payloadText parseJson) = [] := by
    rw [List.filterMap_eq_nil_iff]
    intro a ha
    have h2 := payloadText_isSome parseJson a
    rw [show isContentWith parseJson a = isContentPayload a from rfl, hc a ha] at h2
    cases hopt : payloadText parseJson a with
    | none => rfl
    | some t =>
      rw [hopt] at h2
      simp at h2
  have hparts : ST.responseParts = [] := by
    rw [hSTdef, foldl_parts, hfil]
    rfl
  have hemis : ST.emissions = [] := by
    have hlen : ST.emissions.length = 0 := by
      rw [hSTdef, foldl_emissions_length]
      have hfil2 : payloads.filter (isContentWith parseJson) = [] := by
        rw [List.filter_eq_nil_iff]
        intro a ha
        simp [show isContentWith parseJson a = isContentPayload a from rfl, hc a ha]
      rw [hfil2]
      rfl
    exact List.length_eq_zero.mp hlen
  refine ⟨rfl, ?_, ?_, ?_⟩
  · rw [hps, finalize_response, hparts]
    simp
  · rw [hps, finalize_emissions, hemis]
  · intro hu
    have hvac : ∀ s ∈ payloads, liveUsage parseJson s = none := fun s hs => hu s hs
    have husage := foldl_usage parseJson model currency base payloads initState
    rw [lastUsage_of_all_none parseJson payloads
      (initState.tokenUsageFound, initState.tokenUsage) hvac] at husage
    have hfound : ST.tokenUsageFound = false := by
      have := congrArg Prod.fst husage
      simpa [initState] using this
    have hchunks : ST.allChunks = chunksAdded payloads := by
      rw [hSTdef, foldl_allChunks]
      rfl
    have hscan : firstUsage parseJson ST.allChunks = none := by
      rw [hchunks, firstUsage]
      apply findSome?_eq_none_of
      intro x hx
      obtain ⟨hxl, hxd⟩ := mem_chunksAdded hx
      have hx2 := hu x hxl
      simp only [payloadUsage, liveUsage, if_neg hxd] at hx2
      exact hx2
    rw [hps, finalize_estimate parseJson model currency ST hfound hscan, hparts]
    rfl

/-- C1 witness: the amended statement evaluated on a stream consisting of
the `[DONE]` sentinel only. -/
theorem c1_witness :
    processStreamBody "mistral-large-latest" Currency.USD [] (some ["[DONE]"])
        = Except.ok (processStream "mistral-large-latest" Currency.USD [] ["[DONE]"]) ∧
    (processStream "mistral-large-latest" Currency.USD [] ["[DONE]"]).response = none ∧
    (processStream "mistral-large-latest" Currency.USD [] ["[DONE]"]).emissions = [] ∧
    (processStream "mistral-large-latest" Currency.USD [] ["[DONE]"]).tokenDetails
      = { note := true
          prompt := some (.num (jq 0 1))
          completion := some (.num (jq 0 1))
          total := some (.num (jq 0 1))
          estimatedCostCents := some (jq 0 1)
          currency := Currency.USD } := by
  have h := c1_zero_content_returns "mistral-large-latest" Currency.USD [] ["[DONE]"]
    (by intro s hs; rw [List.mem_singleton] at hs; subst hs; rfl)
  exact ⟨h.1, h.2.1, h.2.2.1,
    h.2.2.2 (by intro s hs; rw [List.mem_singleton] at hs; subst hs; rfl)⟩

/-! ## C4 -/

theorem lastUsage_cons (parse : String → Option Json) (s : String) (l : List String)
    (d : Bool × Json) :
    lastUsage parse (s :: l) d
      = lastUsage parse l (match liveUsage parse s with
          | some u => (true, u)
          | none => d) := rfl

/-- C4 counterexample: a chunk carrying the usage record
`{prompt_tokens: 7, completion_tokens: 0, total_tokens: 0}` is ignored
because its total is zero — the final output is the estimate (note set,
prompt reported 0), not that record used verbatim. -/
theorem c4_counterexample :
    (parseJson zeroTotalChunk).bind (fun j => getField j "usage")
      = some (.obj [("prompt_tokens", .num (jq 7 1)), ("completion_tokens", .num (jq 0 1)),
                    ("total_tokens", .num (jq 0 1))]) ∧
    (processStream "mistral-large-latest" Currency.USD [] [zeroTotalChunk]).tokenDetails.note
      = true ∧
    (processStream "mistral-large-latest" Currency.USD []
        [zeroTotalChunk]).tokenDetails.prompt = some (.num (jq 0 1)) ∧
    getField (.obj [("prompt_tokens", .num (jq 7 1)), ("completion_tokens", .num (jq 0 1)),
                    ("total_tokens", .num (jq 0 1))]) "prompt_tokens"
      = some (.num (jq 7 1)) ∧
    (jq 7 1 : ℚ) ≠ jq 0 1 := by
  refine ⟨rfl, rfl, rfl, rfl, by decide⟩

/-- C4 (amended): if no chunk passes the loop's usage check, the final
token-detail output is the estimate — marked with the note, completion
tokens equal to ceil(length of the final response text / 4), prompt
tokens reported zero; if exactly one chunk carries a usage record passing
that check (a truthy usage object whose total_tokens is truthy, i.e.
nonzero), that record's fields are used verbatim and the output is not
marked as an estimate. A usage record with a zero total does not count as
carried. -/
theorem c4_usage_recovery (model : String) (currency : Currency)
    (base : List MistralMessage) :
    (∀ payloads : List String, (∀ s ∈ payloads, payloadUsage s = none) →
      (processStream model currency base payloads).tokenDetails
        = { note := true
            prompt := some (.num (jq 0 1))
            completion := some (.num (jq (estimatedCompletionTokens
              (((processStream model currency base payloads).response).getD "")) 1))
            total := some (.num (jq (estimatedCompletionTokens
              (((processStream model currency base payloads).response).getD "")) 1))
            estimatedCostCents := some (jq 0 1)
            currency := currency }) ∧
    (∀ (l1 l2 : List String) (s : String) (u : Json),
      payloadUsage s = some u → (∀ x ∈ l1 ++ l2, payloadUsage x = none) →
      (processStream model currency base (l1 ++ s :: l2)).tokenDetails
        = { note := false
            prompt := getField u "prompt_tokens"
            completion := getField u "completion_tokens"
            total := getField u "total_tokens"
            estimatedCostCents := costOf model currency u
            currency := currency }) := by
  constructor
  · intro payloads hu
    have hps : processStream model currency base payloads
        = finalizeStream parseJson model currency
            (List.foldl (streamStep parseJson model currency base) initState payloads) := rfl
    set ST := List.foldl (streamStep parseJson model currency base) initState payloads
      with hSTdef
    have hvac : ∀ s ∈ payloads, liveUsage parseJson s = none := fun s hs => hu s hs
    have husage := foldl_usage parseJson model currency base payloads initState
    rw [lastUsage_of_all_none parseJson payloads
      (initState.tokenUsageFound, initState.tokenUsage) hvac] at husage
    have hfound : ST.tokenUsageFound = false := by
      have := congrArg Prod.fst husage
      simpa [initState] using this
    have hchunks : ST.allChunks = chunksAdded payloads := by
      rw [hSTdef, foldl_allChunks]
      rfl
    have hscan : firstUsage parseJson ST.allChunks = none := by
      rw [hchunks, firstUsage]
      apply findSome?_eq_none_of
      intro x hx
      obtain ⟨hxl, hxd⟩ := mem_chunksAdded hx
      have hx2 := hu x hxl
      simp only [payloadUsage, liveUsage, if_neg hxd] at hx2
      exact hx2
    have hresp : ((processStream model currency base payloads).response).getD ""
        = String.join ST.responseParts := by
      rw [hps, finalize_response]
      by_cases hnil : ST.responseParts = []
      · rw [if_pos hnil, hnil]
        rfl
      · rw [if_neg hnil]
        rfl
    rw [hps] at hresp
    rw [hps, finalize_estimate parseJson model currency ST hfound hscan, hresp]
  · intro l1 l2 s u hs hrest
    have hps : processStream model currency base (l1 ++ s :: l2)
        = finalizeStream parseJson model currency
            (List.foldl (streamStep parseJson model currency base) initState
              (l1 ++ s :: l2)) := rfl
    set ST := List.foldl (streamStep parseJson model currency base) initState (l1 ++ s :: l2)
      with hSTdef
    have husage := foldl_usage parseJson model currency base (l1 ++ s :: l2) initState
    rw [lastUsage_append, lastUsage_of_all_none parseJson l1
        (initState.tokenUsageFound, initState.tokenUsage)
        (fun x hx => hrest x (by simp [hx])),
      lastUsage_cons, show liveUsage parseJson s = some u from hs,
      lastUsage_of_all_none parseJson l2 _
        (fun x hx => hrest x (by simp [hx]))] at husage
    have hfound : ST.tokenUsageFound = true := congrArg Prod.fst husage
    have husg : ST.tokenUsage = u := congrArg Prod.snd husage
    rw [hps, finalize_found parseJson model currency ST hfound, husg]
    rfl

/-- C4 witness: the no-usage arm on a single content chunk (estimate with
ceil(2/4) = 1 completion token), and the one-usage arm on a chunk whose
usage record is {5, 7, 12}. -/
theorem c4_witness :
    (processStream "mistral-large-latest" Currency.USD [] [hiChunk]).tokenDetails
      = { note := true
          prompt := some (.num (jq 0 1))
          completion := some (.num (jq (estimatedCompletionTokens
            (((processStream "mistral-large-latest" Currency.USD [] [hiChunk]).response).getD
              "")) 1))
          total := some (.num (jq (estimatedCompletionTokens
            (((processStream "mistral-large-latest" Currency.USD [] [hiChunk]).response).getD
              "")) 1))
          estimatedCostCents := some (jq 0 1)
          currency := Currency.USD } ∧
    (processStream "mistral-large-latest" Currency.USD [] ([] ++ usageChunk :: [])).tokenDetails
      = { note := false
          prompt := getField (.obj [("prompt_tokens", .num (jq 5 1)),
              ("completion_tokens", .num (jq 7 1)), ("total_tokens", .num (jq 12 1))])
            "prompt_tokens"
          completion := getField (.obj [("prompt_tokens", .num (jq 5 1)),
              ("completion_tokens", .num (jq 7 1)), ("total_tokens", .num (jq 12 1))])
            "completion_tokens"
          total := getField (.obj [("prompt_tokens", .num (jq 5 1)),
              ("completion_tokens", .num (jq 7 1)), ("total_tokens", .num (jq 12 1))])
            "total_tokens"
          estimatedCostCents := costOf "mistral-large-latest" Currency.USD
            (.obj [("prompt_tokens", .num (jq 5 1)), ("completion_tokens", .num (jq 7 1)),
                   ("total_tokens", .num (jq 12 1))])
          currency := Currency.USD } := by
  constructor
  · exact (c4_usage_recovery "mistral-large-latest" Currency.USD []).1 [hiChunk]
      (by intro s hs; rw [List.mem_singleton] at hs; subst hs; rfl)
  · exact (c4_usage_recovery "mistral-large-latest" Currency.USD []).2 [] [] usageChunk
      (.obj [("prompt_tokens", .num (jq 5 1)), ("completion_tokens", .num (jq 7 1)),
             ("total_tokens", .num (jq 12 1))])
      rfl (by intro x hx; simp at hx)

/-! ## C9 -/

/-- C9: a payload line that fails to parse as JSON is skipped without
aborting the stream — the invocation's result is exactly what it would
have been had the malformed line not been present, and on the concrete
stream with `{not json` between two valid chunks both chunks are still
yielded and folded into the accumulator. -/
theorem c9_malformed_line_skipped :
    (∀ (model : String) (currency : Currency) (base : List MistralMessage)
        (l1 l2 : List String) (s : String), parseJson s = none →
      processStream model currency base (l1 ++ s :: l2)
        = processStream model currency base (l1 ++ l2)) ∧
    (processStream "mistral-large-latest" Currency.USD []
        [hiChunk, "\x7bnot json", thereChunk]).emissions.length = 2 ∧
    (processStream "mistral-large-latest" Currency.USD []
        [hiChunk, "\x7bnot json", thereChunk]).response = some "Hi there" := by
  refine ⟨?_, rfl, by decide⟩
  intro model currency base l1 l2 s hs
  by_cases hd : s = "[DONE]"
  · have hid : ∀ st, streamStep parseJson model currency base st s = st := by
      intro st
      simp [streamStep, hd]
    rw [processStream, processStream, processStreamWith, processStreamWith,
      List.foldl_append, List.foldl_append, List.foldl_cons, hid]
  · rw [processStream, processStream, processStreamWith, processStreamWith,
      List.foldl_append, List.foldl_append, List.foldl_cons]
    set M := List.foldl (streamStep parseJson model currency base) initState l1 with hM
    have hstep : streamStep parseJson model currency base M s
        = { M with allChunks := M.allChunks ++ [s] } := by
      simp [streamStep, hd, hs]
    rw [hstep, foldl_chunks_param parseJson model currency base l2 M (M.allChunks ++ [s])]
    apply finalizeStream_congr
    · rfl
    · rfl
    · rfl
    · rfl
    · show firstUsage parseJson (M.allChunks ++ [s] ++ chunksAdded l2)
        = firstUsage parseJson
            (List.foldl (streamStep parseJson model currency base) M l2).allChunks
      have hass : M.allChunks ++ [s] ++ chunksAdded l2
          = M.allChunks ++ s :: chunksAdded l2 := by
        simp
      rw [foldl_allChunks parseJson model currency base l2 M, hass, firstUsage, firstUsage]
      exact findSome?_middle_none _ _ _ _ (by simp [scanChunkUsage, hs])

/-- C9 witness: the stream-equivalence applied at the concrete malformed
line `{not json` between the two valid chunks. -/
theorem c9_witness :
    processStream "mistral-large-latest" Currency.USD []
        ([hiChunk] ++ "\x7bnot json" :: [thereChunk])
      = processStream "mistral-large-latest" Currency.USD [] ([hiChunk] ++ [thereChunk]) :=
  c9_malformed_line_skipped.1 "mistral-large-latest" Currency.USD [] [hiChunk] [thereChunk]
    "\x7bnot json" rfl

/-! ## C8: line-decoder characterization -/

theorem splitNl_ne_nil (cs : List Char) : splitNl cs ≠ [] := by
  induction cs with
  | nil => simp [splitNl]
  | cons c cs ih =>
    cases h : splitNl cs with
    | nil => exact absurd h ih
    | cons hh tt =>
      by_cases hc : c = '\n' <;> simp [splitNl, h, hc]

theorem splitNl_cons_eq (c : Char) (cs : List Char) (h : List Char) (t : List (List Char))
    (hs : splitNl cs = h :: t) :
    splitNl (c :: cs) = if c = '\n' then [] :: h :: t else (c :: h) :: t := by
  rw [splitNl, hs]

theorem lastLine_cons_of_ne_nil (x : List Char) (t : List (List Char)) (h : t ≠ []) :
    lastLine (x :: t) = lastLine t := by
  cases t with
  | nil => exact absurd rfl h
  | cons a t' => rfl

theorem splitNl_append (y x : List Char) :
    splitNl (x ++ y) = (splitNl x).dropLast ++ splitNl (lastLine (splitNl x) ++ y) := by
  induction x with
  | nil => simp [splitNl, lastLine]
  | cons c x ih =>
    cases hsx : splitNl x with
    | nil => exact absurd hsx (splitNl_ne_nil x)
    | cons h1 t1 =>
      by_cases hc : c = '\n'
      · subst hc
        cases hxy : splitNl (x ++ y) with
        | nil => exact absurd hxy (splitNl_ne_nil (x ++ y))
        | cons h0 t0 =>
          rw [List.cons_append, splitNl_cons_eq '\n' (x ++ y) h0 t0 hxy, if_pos rfl,
            ← hxy, ih, hsx, splitNl_cons_eq '\n' x h1 t1 hsx, if_pos rfl,
            List.dropLast_cons₂, lastLine_cons_of_ne_nil _ _ (List.cons_ne_nil h1 t1)]
          rfl
      · cases t1 with
        | nil =>
          have keyL : splitNl (x ++ y) = splitNl (h1 ++ y) := by
            rw [ih, hsx]
            rfl
          cases hxy : splitNl (h1 ++ y) with
          | nil => exact absurd hxy (splitNl_ne_nil (h1 ++ y))
          | cons h0 t0 =>
            rw [List.cons_append,
              splitNl_cons_eq c (x ++ y) h0 t0 (keyL.trans hxy), if_neg hc,
              splitNl_cons_eq c x h1 [] hsx, if_neg hc]
            have hll : lastLine [c :: h1] = c :: h1 := rfl
            rw [List.dropLast_single, hll, List.nil_append, List.cons_append,
              splitNl_cons_eq c (h1 ++ y) h0 t0 hxy, if_neg hc]
        | cons a t1' =>
          have keyL : splitNl (x ++ y)
              = h1 :: ((a :: t1').dropLast ++ splitNl (lastLine (a :: t1') ++ y)) := by
            rw [ih, hsx, List.dropLast_cons₂,
              lastLine_cons_of_ne_nil _ _ (List.cons_ne_nil a t1')]
            rfl
          rw [List.cons_append, splitNl_cons_eq c (x ++ y) _ _ keyL, if_neg hc,
            splitNl_cons_eq c x h1 (a :: t1') hsx, if_neg hc, List.dropLast_cons₂,
            lastLine_cons_of_ne_nil _ _ (List.cons_ne_nil a t1')]
          rfl

theorem lastLine_splitNl_no_newline (cs : List Char) : '\n' ∉ lastLine (splitNl cs) := by
  induction cs with
  | nil => simp [splitNl, lastLine]
  | cons c cs ih =>
    cases hs : splitNl cs with
    | nil => exact absurd hs (splitNl_ne_nil cs)
    | cons h t =>
      rw [hs] at ih
      by_cases hc : c = '\n'
      · rw [splitNl_cons_eq c cs h t hs, if_pos hc,
          lastLine_cons_of_ne_nil _ _ (List.cons_ne_nil h t)]
        exact ih
      · rw [splitNl_cons_eq c cs h t hs, if_neg hc]
        cases t with
        | nil =>
          intro hmem
          rcases List.mem_cons.mp hmem with h1 | h2
          · exact hc h1.symm
          · exact ih (by simpa [lastLine] using h2)
        | cons a t' =>
          rw [lastLine_cons_of_ne_nil _ _ (List.cons_ne_nil a t')]
          rw [lastLine_cons_of_ne_nil _ _ (List.cons_ne_nil a t')] at ih
          exact ih

theorem splitNl_no_newline (cs : List Char) (h : '\n' ∉ cs) : splitNl cs = [cs] := by
  induction cs with
  | nil => rfl
  | cons c cs ih =>
    have hc : c ≠ '\n' := fun hcc => h (hcc ▸ List.mem_cons_self c cs)
    have hcs : '\n' ∉ cs := fun hm => h (List.mem_cons_of_mem c hm)
    rw [splitNl_cons_eq c cs cs [] (ih hcs), if_neg hc]

theorem decodeLinesAux_eq (reads : List (List Char)) :
    ∀ buf : List Char, '\n' ∉ buf →
      decodeLinesAux buf reads = (splitNl (buf ++ reads.flatten)).dropLast := by
  induction reads with
  | nil =>
    intro buf hb
    rw [decodeLinesAux, List.flatten_nil, List.append_nil, splitNl_no_newline buf hb]
    rfl
  | cons r rs ih =>
    intro buf hb
    rw [decodeLinesAux, List.flatten_cons, ← List.append_assoc,
      splitNl_append (rs.flatten) (buf ++ r)]
    rw [List.dropLast_append_of_ne_nil _ (splitNl_ne_nil _)]
    have := ih (lastLine (splitNl (buf ++ r))) (lastLine_splitNl_no_newline (buf ++ r))
    rw [readStep]
    simp only []
    rw [this]

theorem join_data_aux (reads : List String) :
    ∀ acc : String, (List.foldl (· ++ ·) acc reads).data
      = acc.data ++ (reads.map String.data).flatten := by
  induction reads with
  | nil => intro acc; simp
  | cons r rs ih =>
    intro acc
    rw [List.foldl_cons, ih, data_append, List.map_cons, List.flatten_cons,
      List.append_assoc]

theorem join_data (reads : List String) :
    (String.join reads).data = (reads.map String.data).flatten := by
  rw [String.join, join_data_aux]
  rfl

theorem streamStep_parse_congr (parse1 parse2 : String → Option Json)
    (h : ∀ s, s ≠ "[DONE]" → parse1 s = parse2 s) (m : String) (c : Currency)
    (b : List MistralMessage) (st : StreamState) (s : String) :
    streamStep parse1 m c b st s = streamStep parse2 m c b st s := by
  by_cases hd : s = "[DONE]"
  · simp [streamStep, hd]
  · have hp := h s hd
    simp only [streamStep, if_neg hd, hp]

theorem foldl_parse_congr (parse1 parse2 : String → Option Json)
    (h : ∀ s, s ≠ "[DONE]" → parse1 s = parse2 s) (m : String) (c : Currency)
    (b : List MistralMessage) :
    ∀ (l : List String) (st : StreamState),
      List.foldl (streamStep parse1 m c b) st l = List.foldl (streamStep parse2 m c b) st l := by
  intro l
  induction l with
  | nil => intro st; rfl
  | cons s rest ih =>
    intro st
    rw [List.foldl_cons, List.foldl_cons, streamStep_parse_congr parse1 parse2 h, ih]

theorem findSome?_congr {α β : Type _} (f g : α → Option β) :
    ∀ l : List α, (∀ x ∈ l, f x = g x) → l.findSome? f = l.findSome? g := by
  intro l
  induction l with
  | nil => intro _; rfl
  | cons a l ih =>
    intro h
    rw [List.findSome?_cons, List.findSome?_cons, h a (by simp),
      ih (fun x hx => h x (by simp [hx]))]

/-- C8: the stream decoder is the line machine the spec describes — the
payloads produced from any sequence of reads are exactly the `data: `
payloads of the complete (newline-terminated) lines of the concatenated
bytes, the trailing incomplete line being held back and finally
discarded; the chunk loop never hands the `[DONE]` sentinel to the JSON
parser (the result is unchanged under any change of the parser's value at
`[DONE]`); and on the spec's concrete byte sequence exactly two content
chunks are produced with accumulated response text "Hi there". -/
theorem c8_stream_decoder :
    (∀ reads : List String,
      decodePayloads reads
        = (completeLines (String.join reads).data).filterMap linePayload) ∧
    (∀ (parse1 parse2 : String → Option Json) (model : String) (currency : Currency)
        (base : List MistralMessage) (payloads : List String),
      (∀ s, s ≠ "[DONE]" → parse1 s = parse2 s) →
      processStreamWith parse1 model currency base payloads
        = processStreamWith parse2 model currency base payloads) ∧
    decodePayloads [c8bytes] = [hiChunk, thereChunk, "[DONE]"] ∧
    (processStream "mistral-large-latest" Currency.USD []
        (decodePayloads [c8bytes])).emissions.length = 2 ∧
    (processStream "mistral-large-latest" Currency.USD []
        (decodePayloads [c8bytes])).response = some "Hi there" := by
  refine ⟨?_, ?_, by decide, rfl, by decide⟩
  · intro reads
    rw [decodePayloads, decodeLines, decodeLinesAux_eq (reads.map String.data) []
      (by simp), completeLines, join_data]
    rfl
  · intro parse1 parse2 model currency base payloads h
    rw [processStreamWith, processStreamWith,
      foldl_parse_congr parse1 parse2 h model currency base payloads initState]
    set F := List.foldl (streamStep parse2 model currency base) initState payloads with hF
    have hchunks : F.allChunks = chunksAdded payloads := by
      rw [hF, foldl_allChunks]
      rfl
    have hfu : firstUsage parse1 F.allChunks = firstUsage parse2 F.allChunks := by
      rw [firstUsage, firstUsage]
      apply findSome?_congr
      intro x hx
      rw [hchunks] at hx
      obtain ⟨_, hxd⟩ := mem_chunksAdded hx
      rw [scanChunkUsage, scanChunkUsage, h x hxd]
    rw [finalizeStream, finalizeStream, hfu]

/-- C8 witness: the decode equation, the `[DONE]`-independence and the
chunk counts, all evaluated on the spec's concrete byte sequence. -/
theorem c8_witness :
    decodePayloads [c8bytes]
      = (completeLines (String.join [c8bytes]).data).filterMap linePayload ∧
    processStreamWith parseJson "mistral-large-latest" Currency.USD []
        (decodePayloads [c8bytes])
      = processStreamWith parseJson "mistral-large-latest" Currency.USD []
          (decodePayloads [c8bytes]) ∧
    (processStream "mistral-large-latest" Currency.USD []
        (decodePayloads [c8bytes])).emissions.length = 2 :=
  ⟨c8_stream_decoder.1 [c8bytes],
   c8_stream_decoder.2.1 parseJson parseJson "mistral-large-latest" Currency.USD []
     (decodePayloads [c8bytes]) (fun _ _ => rfl),
   c8_stream_decoder.2.2.2.1⟩
